import Mathlib

/-!
# Verification of the nncase operator execution engine

A shallow embedding, in Lean 4, of the operator execution engine of the
nncase neural-network compiler:

* `src/kernels/cpu/reference/gather_nd.cpp` — the reference gather-nd kernel;
* `src/evaluator/ops/neutral/neutral_ops.cpp` — the Evaluator's registration
  of per-operator kernels (no-op nodes, clamp, unary with banker's rounding,
  dequantize dispatch, …);
* `src/codegen/stackvm/module_builder.h` — the stack-vm bytecode emitter
  interface.

Tensors are modelled as total functions from flat element offsets to values;
shapes and strides are lists of naturals, and the row-major offset of a
coordinate is `offset strides index = Σ index[d] * strides[d]`, exactly the
`kernels::offset` helper the C++ kernels use.  Machine `int32_t` index values
are modelled as `Int`, and their conversion to `size_t` as reduction modulo
`2^64`.  Floating-point elementwise values are modelled as exact rationals;
the transcendental libm routines the unary evaluator delegates to
(`cosf`, `expf`, …) are abstract function parameters, since their numeric
behaviour is external to this repository.
-/

namespace NncaseSpec

/-- `kernels::offset`: linear offset of a multi-dimensional `index` under
`strides`, `Σ index[d] * strides[d]` (`runtime_op_utility.h`). -/
def offset (strides index : List Nat) : Nat :=
  (List.zipWith (· * ·) index strides).sum

/-- Product of all extents of a shape: the flat element count of a tensor. -/
def natProd (shape : List Nat) : Nat := shape.foldr (· * ·) 1

/-- Modelled from the spec: `get_default_strides` (declared in
`runtime_op_utility.h`, which is not under `src/`).  "Row-major (C-order)
default strides are derivable from a shape alone": the stride of axis `d` is
the product of all extents to its right. -/
def get_default_strides : List Nat → List Nat
  | [] => []
  | _ :: rest => natProd rest :: get_default_strides rest

/-- Conversion of a C `int32_t` value to `size_t`, as performed when a gather
index value is stored into a `runtime_shape_t` coordinate: reduction modulo
`2 ^ 64`. -/
def sizeT (v : Int) : Nat := (v % (2 ^ 64 : Int)).toNat

/-- All coordinates of a shape in row-major order (last axis fastest) — the
iteration order of the `kernels::apply` driver that the reference kernels use
to visit every output index. -/
def shapeIndices : List Nat → List (List Nat)
  | [] => [[]]
  | d :: rest => (List.range d).flatMap (fun i => (shapeIndices rest).map (fun t => i :: t))

/-!
## The reference gather-nd kernel (`gather_nd.cpp`, `gather_nd_impl`)

For one output coordinate `out_index` the kernel builds the input coordinate
`in_index` with four loops over a pair of zero-initialised coordinate vectors
`indices_index` (rank of the indices tensor) and `in_index` (rank of the
input):

1. for `i < batch_dims`: `indices_index[i] = in_index[i] = out_index[i]`
   (both counters advance together);
2. for `o` from `batch_dims` while `o < last_indices_index`:
   `indices_index[o] = out_index[o]`;
3. `indices_begin = indices + offset(get_default_strides(indices_shape),
   indices_index)`; then for `i < indices_shape[last]`:
   `in_index[batch_dims + i] = indices_begin[i]`;
4. copy remaining `out_index` axes while both counters stay in range.

Each loop is rendered as a `List.foldl` over the exact counter range the C++
loop traverses; `List.set` past the end of a list is a no-op, matching the
fact that the C++ only ever writes in range for well-formed arguments.
-/

/-- Loop 1 of `gather_nd_impl`: both zero-initialised coordinate vectors
(`runtime_shape_t indices_index(indices_shape.size())` and
`runtime_shape_t in_index(in_shape.size())`) receive `out_index[i]` at
position `i` for every `i < batch_dims`. -/
def gnd_step1 (out_index : List Nat) (ind_rank in_rank batch_dims : Nat) :
    List Nat × List Nat :=
  (List.range batch_dims).foldl
    (fun (p : List Nat × List Nat) i =>
      (p.1.set i (out_index.getD i 0), p.2.set i (out_index.getD i 0)))
    (List.replicate ind_rank 0, List.replicate in_rank 0)

/-- Loops 1–2 of `gather_nd_impl` applied to `indices_index`: after loop 1,
`o_index` runs from `batch_dims` up to (excluding) `last_indices_index`,
copying `out_index[o_index]` into `indices_index[o_index]`.  The last
coordinate of the result is never written and stays `0`. -/
def gnd_indices_index (out_index : List Nat) (ind_rank in_rank batch_dims : Nat) :
    List Nat :=
  (List.range' batch_dims ((ind_rank - 1) - batch_dims)).foldl
    (fun xs o => xs.set o (out_index.getD o 0))
    (gnd_step1 out_index ind_rank in_rank batch_dims).1

/-- `indices_begin`'s displacement from the start of the indices buffer:
`offset(get_default_strides(indices_shape), indices_index)`. -/
def gnd_base (out_index : List Nat) (indices_shape : List Nat)
    (in_rank batch_dims : Nat) : Nat :=
  offset (get_default_strides indices_shape)
    (gnd_indices_index out_index indices_shape.length in_rank batch_dims)

/-- The four index-construction loops of `gather_nd_impl`, producing the input
coordinate `in_index` for one output coordinate.  `in_rank` is
`in_shape.size()`.  Loop 3 reads `indices_shape[last]` consecutive `int32_t`
values starting at `indices_begin` into `in_index` after the batch
coordinates; loop 4 resumes `o_index` where loop 2 left it (at
`max batch_dims last_indices_index`) and copies the remaining output axes
while both counters stay in range. -/
def gather_nd_in_index (out_index : List Nat) (in_rank : Nat)
    (indices : Nat → Int) (indices_shape : List Nat) (batch_dims : Nat) : List Nat :=
  let last_indices_index := indices_shape.length - 1
  let q := indices_shape.getD last_indices_index 0
  let base := gnd_base out_index indices_shape in_rank batch_dims
  -- loop 3: in_index[batch_dims + i] = indices_begin[i] for i < indices_shape[last]
  let step3 := (List.range q).foldl
    (fun xs i => xs.set (batch_dims + i) (sizeT (indices (base + i))))
    (gnd_step1 out_index indices_shape.length in_rank batch_dims).2
  -- loop 4: runs while o_index < out_index.size() and i_index < in_index.size()
  let o_start := max batch_dims last_indices_index
  let i_start := batch_dims + q
  let cnt := min (out_index.length - o_start) (in_rank - i_start)
  (List.range cnt).foldl
    (fun xs t => xs.set (i_start + t) (out_index.getD (o_start + t) 0)) step3

/-- The flat input offset read for one output coordinate:
`offset(in_strides, in_index)` in the final line of `gather_nd_impl`. -/
def gather_nd_read_offset (out_index : List Nat) (in_rank : Nat)
    (in_strides : List Nat) (indices : Nat → Int) (indices_shape : List Nat)
    (batch_dims : Nat) : Nat :=
  offset in_strides (gather_nd_in_index out_index in_rank indices indices_shape batch_dims)

/-- `gather_nd_impl`: for every output coordinate (visited by `apply` over
`out_shape`) write `input[offset(in_strides, in_index)]` to
`output[offset(out_strides, out_index)]`.  The body returns `ok()`
unconditionally, so the whole kernel is wrapped in `Except.ok` — mirroring the
C++ `result<void>` that never carries an error. -/
def gather_nd_impl {α : Type} [DecidableEq Nat] (input : Nat → α) (output : Nat → α)
    (in_shape out_shape in_strides out_strides : List Nat)
    (indices : Nat → Int) (indices_shape : List Nat) (batch_dims : Nat) :
    Except String (Nat → α) :=
  Except.ok <| (shapeIndices out_shape).foldl
    (fun out oi =>
      Function.update out (offset out_strides oi)
        (input (gather_nd_read_offset oi in_shape.length in_strides indices indices_shape batch_dims)))
    output

/-!
## Generic lemmas about `List.getD` and loops rendered as `List.foldl`/`List.set`
-/

theorem getD_set {β : Type} (l : List β) (k j : Nat) (v d : β) :
    (l.set k v).getD j d = if k = j ∧ k < l.length then v else l.getD j d := by
  rcases Decidable.em (k = j) with he | he
  · subst he
    rcases Nat.lt_or_ge k l.length with h | h
    · simp [List.getD_eq_getElem?_getD, List.getElem?_set, h]
    · simp [List.getD_eq_getElem?_getD, List.getElem?_set, Nat.not_lt.mpr h,
        List.getElem?_eq_none h]
  · simp [List.getD_eq_getElem?_getD, List.getElem?_set, he]

theorem getD_append {β : Type} (as bs : List β) (j : Nat) (d : β) :
    (as ++ bs).getD j d =
      if j < as.length then as.getD j d else bs.getD (j - as.length) d := by
  rcases Nat.lt_or_ge j as.length with h | h
  · simp [List.getD_eq_getElem?_getD, List.getElem?_append, h]
  · simp [List.getD_eq_getElem?_getD, List.getElem?_append, h, Nat.not_lt.mpr h]

theorem getD_take {β : Type} (l : List β) (n j : Nat) (d : β) (h : j < n) :
    (l.take n).getD j d = l.getD j d := by
  simp [List.getD_eq_getElem?_getD, List.getElem?_take, h]

theorem getD_drop {β : Type} (l : List β) (n j : Nat) (d : β) :
    (l.drop n).getD j d = l.getD (n + j) d := by
  simp [List.getD_eq_getElem?_getD, List.getElem?_drop]

theorem getD_map_range {β : Type} (g : Nat → β) (q j : Nat) (d : β) :
    ((List.range q).map g).getD j d = if j < q then g j else d := by
  rcases Nat.lt_or_ge j q with h | h
  · simp [List.getD_eq_getElem?_getD, List.getElem?_map, List.getElem?_range h, h]
  · simp [List.getD_eq_getElem?_getD, List.getElem?_map, List.getElem?_eq_none,
      h, Nat.not_lt.mpr h]

theorem getD_replicate {β : Type} (n j : Nat) (a d : β) :
    (List.replicate n a).getD j d = if j < n then a else d := by
  rcases Nat.lt_or_ge j n with h | h
  · rw [List.getD_eq_getElem?_getD, List.getElem?_replicate, if_pos h]
    rw [Option.getD_some, if_pos h]
  · rw [List.getD_eq_getElem?_getD, List.getElem?_replicate, if_neg (Nat.not_lt.mpr h)]
    rw [Option.getD_none, if_neg (Nat.not_lt.mpr h)]

theorem getD_of_length_le {β : Type} (l : List β) (j : Nat) (d : β)
    (h : l.length ≤ j) : l.getD j d = d := by
  simp [List.getD_eq_getElem?_getD, List.getElem?_eq_none h]

theorem ext_of_getD {β : Type} (l₁ l₂ : List β) (d : β)
    (hl : l₁.length = l₂.length) (h : ∀ j, l₁.getD j d = l₂.getD j d) : l₁ = l₂ := by
  refine List.ext_getElem hl (fun i h₁ h₂ => ?_)
  rw [← List.getD_eq_getElem l₁ d h₁, ← List.getD_eq_getElem l₂ d h₂]
  exact h i

/-- A fold of pairwise `List.set` updates splits into independent folds on each
component. -/
theorem foldl_pair_set_split {β γ : Type} (l : List Nat)
    (w : Nat → β) (v : Nat → γ) (a : List β) (b : List γ) :
    (l.foldl (fun p i => (p.1.set i (w i), p.2.set i (v i))) (a, b)) =
      (l.foldl (fun ys i => ys.set i (w i)) a, l.foldl (fun ys i => ys.set i (v i)) b) := by
  induction l generalizing a b with
  | nil => rfl
  | cons x xs ih => simp [List.foldl_cons, ih]

theorem length_foldl_set {β : Type} (l : List Nat) (e : Nat → Nat) (v : Nat → β)
    (xs : List β) :
    (l.foldl (fun ys i => ys.set (e i) (v i)) xs).length = xs.length := by
  induction l generalizing xs with
  | nil => rfl
  | cons x t ih => simp [List.foldl_cons, ih, List.length_set]

/-- A counted `for` loop writing `g k` to cell `k` for `k ∈ [s, s + n)`:
pointwise description of the resulting list. -/
theorem foldl_set_range'_getD {β : Type} (s n : Nat) (g : Nat → β) (xs : List β)
    (j : Nat) (d : β) :
    ((List.range' s n).foldl (fun ys k => ys.set k (g k)) xs).getD j d =
      if s ≤ j ∧ j < s + n ∧ j < xs.length then g j else xs.getD j d := by
  induction n generalizing s xs with
  | zero =>
    rw [List.range'_zero, List.foldl_nil, if_neg (by omega)]
  | succ n ih =>
    rw [List.range'_succ, List.foldl_cons, ih, List.length_set, getD_set]
    rcases Nat.lt_trichotomy j s with h | h | h
    · rw [if_neg (by omega), if_neg (by omega), if_neg (by omega)]
    · subst h
      rcases Nat.lt_or_ge j xs.length with hl | hl
      · rw [if_neg (by omega), if_pos ⟨rfl, hl⟩, if_pos (by omega)]
      · rw [if_neg (by omega), if_neg (by omega), if_neg (by omega)]
    · by_cases hc : s + 1 ≤ j ∧ j < s + 1 + n ∧ j < xs.length
      · rw [if_pos hc, if_pos (by omega)]
      · rw [if_neg hc, if_neg (by omega), if_neg (by omega)]

/-- A counted `for` loop writing `w t` to cell `c + t` for `t < n`: pointwise
description of the resulting list. -/
theorem foldl_set_offset_getD {β : Type} (c n : Nat) (w : Nat → β) (xs : List β)
    (j : Nat) (d : β) :
    ((List.range n).foldl (fun ys i => ys.set (c + i) (w i)) xs).getD j d =
      if c ≤ j ∧ j < c + n ∧ j < xs.length then w (j - c) else xs.getD j d := by
  induction n generalizing xs with
  | zero =>
    rw [List.range_zero, List.foldl_nil, if_neg (by omega)]
  | succ n ih =>
    rw [List.range_succ, List.foldl_append, List.foldl_cons, List.foldl_nil, getD_set,
      length_foldl_set, ih]
    by_cases he : c + n = j ∧ c + n < xs.length
    · rw [if_pos he, if_pos (by omega), show j - c = n by omega]
    · by_cases hc : c ≤ j ∧ j < c + n ∧ j < xs.length
      · rw [if_neg he, if_pos hc, if_pos (by omega)]
      · rw [if_neg he, if_neg hc, if_neg (by omega)]

/-- Specialisation of `foldl_set_offset_getD` to a loop writing cell `i`
directly (`c = 0`). -/
theorem foldl_set_id_getD {β : Type} (n : Nat) (w : Nat → β) (xs : List β)
    (j : Nat) (d : β) :
    ((List.range n).foldl (fun ys i => ys.set i (w i)) xs).getD j d =
      if j < n ∧ j < xs.length then w j else xs.getD j d := by
  have h := foldl_set_offset_getD 0 n w xs j d
  simp only [Nat.zero_add, Nat.zero_le, true_and, Nat.sub_zero] at h
  exact h

/-!
## Facts about `offset` and `get_default_strides`
-/

theorem get_default_strides_length (s : List Nat) :
    (get_default_strides s).length = s.length := by
  induction s with
  | nil => rfl
  | cons d rest ih => simp [get_default_strides, ih]

/-- The last default stride is `1` (the empty product): concretely, dropping
everything before it from the stride vector leaves `[1]`. -/
theorem get_default_strides_drop_last (s : List Nat) (h : s ≠ []) :
    (get_default_strides s).drop (s.length - 1) = [1] := by
  induction s with
  | nil => exact absurd rfl h
  | cons d rest ih =>
    cases rest with
    | nil => rfl
    | cons e tail =>
      have hne : (e :: tail) ≠ [] := by simp
      have hlen : (e :: tail).length - 1 + 1 = (d :: e :: tail).length - 1 := by
        simp
      rw [get_default_strides, ← hlen, List.drop_succ_cons, ih hne]

theorem offset_nil_strides (p : List Nat) : offset [] p = 0 := by
  cases p <;> rfl

theorem offset_append (s p r : List Nat) :
    offset s (p ++ r) = offset (s.take p.length) p + offset (s.drop p.length) r := by
  induction p generalizing s with
  | nil => simp [offset]
  | cons a p' ih =>
    cases s with
    | nil => simp [offset, offset_nil_strides]
    | cons b s' =>
      simp only [List.cons_append, offset, List.zipWith_cons_cons, List.sum_cons,
        List.length_cons, List.take_succ_cons, List.drop_succ_cons]
      have := ih s'
      simp only [offset] at this
      omega

theorem offset_take (s p : List Nat) : offset (s.take p.length) p = offset s p := by
  induction p generalizing s with
  | nil => simp [offset]
  | cons a p' ih =>
    cases s with
    | nil => simp
    | cons b s' =>
      simp only [List.length_cons, List.take_succ_cons, offset,
        List.zipWith_cons_cons, List.sum_cons]
      have := ih s'
      simp only [offset] at this
      omega

/-- Appending one final coordinate `x` to a prefix of length `rank - 1` moves
the default-strides offset by exactly `x`, because the last default stride
is `1`. -/
theorem offset_default_strides_last (s p : List Nat) (x : Nat)
    (hs : s ≠ []) (hp : p.length = s.length - 1) :
    offset (get_default_strides s) (p ++ [x]) =
      offset (get_default_strides s) (p ++ [0]) + x := by
  have hdrop : (get_default_strides s).drop p.length = [1] := by
    rw [hp]
    exact get_default_strides_drop_last s hs
  rw [offset_append, offset_append, hdrop]
  simp [offset]

/-!
## Pointwise description of the gather-nd index-construction loops
-/

theorem gnd_step1_fst_length (out_index : List Nat) (ind_rank in_rank batch_dims : Nat) :
    (gnd_step1 out_index ind_rank in_rank batch_dims).1.length = ind_rank := by
  rw [gnd_step1, foldl_pair_set_split]
  simp only [length_foldl_set, List.length_replicate]

theorem gnd_step1_snd_length (out_index : List Nat) (ind_rank in_rank batch_dims : Nat) :
    (gnd_step1 out_index ind_rank in_rank batch_dims).2.length = in_rank := by
  rw [gnd_step1, foldl_pair_set_split]
  simp only [length_foldl_set, List.length_replicate]

theorem gnd_step1_fst_getD (out_index : List Nat) (ind_rank in_rank batch_dims j : Nat) :
    (gnd_step1 out_index ind_rank in_rank batch_dims).1.getD j 0 =
      if j < batch_dims ∧ j < ind_rank then out_index.getD j 0 else 0 := by
  rw [gnd_step1, foldl_pair_set_split]
  simp only [foldl_set_id_getD, List.length_replicate, getD_replicate]
  split_ifs <;> simp_all

theorem gnd_step1_snd_getD (out_index : List Nat) (ind_rank in_rank batch_dims j : Nat) :
    (gnd_step1 out_index ind_rank in_rank batch_dims).2.getD j 0 =
      if j < batch_dims ∧ j < in_rank then out_index.getD j 0 else 0 := by
  rw [gnd_step1, foldl_pair_set_split]
  simp only [foldl_set_id_getD, List.length_replicate, getD_replicate]
  split_ifs <;> simp_all

theorem gnd_indices_index_length (out_index : List Nat)
    (ind_rank in_rank batch_dims : Nat) :
    (gnd_indices_index out_index ind_rank in_rank batch_dims).length = ind_rank := by
  rw [gnd_indices_index]
  have h : List.range' batch_dims ((ind_rank - 1) - batch_dims) =
      (List.range ((ind_rank - 1) - batch_dims)).map (batch_dims + ·) :=
    List.range'_eq_map_range _ _
  rw [h, List.foldl_map, length_foldl_set, gnd_step1_fst_length]

theorem gnd_indices_index_getD (out_index : List Nat)
    (ind_rank in_rank batch_dims j : Nat) (hbd : batch_dims ≤ ind_rank - 1) :
    (gnd_indices_index out_index ind_rank in_rank batch_dims).getD j 0 =
      if j < ind_rank - 1 then out_index.getD j 0 else 0 := by
  rw [gnd_indices_index, foldl_set_range'_getD, gnd_step1_fst_length,
    gnd_step1_fst_getD]
  split_ifs <;> first | rfl | omega

/-- The `indices_index` coordinate vector after loops 1–2, as a list: the
first `rank − 1` output coordinates followed by a trailing `0` in the last
axis (which the loops never write). -/
theorem gnd_indices_index_eq (out_index : List Nat)
    (ind_rank in_rank batch_dims : Nat) (hbd : batch_dims ≤ ind_rank - 1)
    (hr : 1 ≤ ind_rank) (hout : ind_rank - 1 ≤ out_index.length) :
    gnd_indices_index out_index ind_rank in_rank batch_dims =
      out_index.take (ind_rank - 1) ++ [0] := by
  refine ext_of_getD _ _ 0 ?_ ?_
  · rw [gnd_indices_index_length, List.length_append,
      List.length_take_of_le hout, List.length_singleton]
    omega
  · intro j
    rw [gnd_indices_index_getD out_index ind_rank in_rank batch_dims j hbd,
      getD_append, List.length_take_of_le hout]
    by_cases hj : j < ind_rank - 1
    · rw [if_pos hj, if_pos hj, getD_take _ _ _ _ hj]
    · rw [if_neg hj, if_neg hj]
      rcases Nat.lt_or_ge (j - (ind_rank - 1)) 1 with h1 | h1
      · rw [show j - (ind_rank - 1) = 0 from by omega]
        rfl
      · exact (getD_of_length_le _ _ _ (by simpa using h1)).symm

/-!
## The specification's three-zone description of gather-nd
-/

/-- The input coordinate of a gather-nd output position as the specification
words it, built in three zones: output axes `[0, batch_dims)` are copied
identically (they also form the leading indices-tensor coordinate); the final
indices-tensor axis — read at the indices-tensor coordinate
`out_index[0, last) ++ [i]` through the default row-major strides — supplies
the next `indices_shape[last]` leading input coordinates; any remaining
trailing output axes are copied straight through. -/
def gather_nd_spec_index (out_index : List Nat) (indices : Nat → Int)
    (indices_shape : List Nat) (batch_dims : Nat) : List Nat :=
  let last := indices_shape.length - 1
  let q := indices_shape.getD last 0
  out_index.take batch_dims
    ++ (List.range q).map (fun i =>
        sizeT (indices (offset (get_default_strides indices_shape)
          (out_index.take last ++ [i]))))
    ++ out_index.drop last

/-- Pointwise description of the input coordinate computed by the four loops
of `gather_nd_impl` (under the shape contract): trailing output axes
outermost, then the coordinates read from the indices buffer starting at
`indices_begin`, then the batch axes. -/
theorem gather_nd_in_index_getD
    (out_index : List Nat) (indices : Nat → Int) (indices_shape : List Nat)
    (batch_dims in_rank : Nat) (j : Nat)
    (h2 : batch_dims ≤ indices_shape.length - 1)
    (h3 : batch_dims + indices_shape.getD (indices_shape.length - 1) 0 ≤ in_rank)
    (h4 : out_index.length = (indices_shape.length - 1) +
      (in_rank - (batch_dims + indices_shape.getD (indices_shape.length - 1) 0))) :
    (gather_nd_in_index out_index in_rank indices indices_shape batch_dims).getD j 0 =
      (if batch_dims + indices_shape.getD (indices_shape.length - 1) 0 ≤ j ∧ j < in_rank then
        out_index.getD ((indices_shape.length - 1) +
          (j - (batch_dims + indices_shape.getD (indices_shape.length - 1) 0))) 0
      else if batch_dims ≤ j ∧ j < batch_dims + indices_shape.getD (indices_shape.length - 1) 0
          ∧ j < in_rank then
        sizeT (indices (gnd_base out_index indices_shape in_rank batch_dims + (j - batch_dims)))
      else if j < batch_dims ∧ j < in_rank then out_index.getD j 0
      else 0) := by
  simp only [gather_nd_in_index]
  rw [Nat.max_eq_right h2]
  rw [foldl_set_offset_getD, length_foldl_set, gnd_step1_snd_length,
    foldl_set_offset_getD, gnd_step1_snd_length, gnd_step1_snd_getD]
  have hmin : min (out_index.length - (indices_shape.length - 1))
      (in_rank - (batch_dims + indices_shape.getD (indices_shape.length - 1) 0)) =
      in_rank - (batch_dims + indices_shape.getD (indices_shape.length - 1) 0) := by omega
  rw [hmin]
  split_ifs <;> first | rfl | omega

/-- Pointwise description of the specification's three-zone coordinate. -/
theorem gather_nd_spec_index_getD
    (out_index : List Nat) (indices : Nat → Int) (indices_shape : List Nat)
    (batch_dims : Nat) (j : Nat)
    (hbd : batch_dims ≤ indices_shape.length - 1)
    (hout : indices_shape.length - 1 ≤ out_index.length) :
    (gather_nd_spec_index out_index indices indices_shape batch_dims).getD j 0 =
      (if j < batch_dims then out_index.getD j 0
      else if j < batch_dims + indices_shape.getD (indices_shape.length - 1) 0 then
        sizeT (indices (offset (get_default_strides indices_shape)
          (out_index.take (indices_shape.length - 1) ++ [j - batch_dims])))
      else if j - (batch_dims + indices_shape.getD (indices_shape.length - 1) 0)
          < out_index.length - (indices_shape.length - 1) then
        out_index.getD ((indices_shape.length - 1) +
          (j - (batch_dims + indices_shape.getD (indices_shape.length - 1) 0))) 0
      else 0) := by
  have hout_bd : batch_dims ≤ out_index.length := le_trans hbd hout
  simp only [gather_nd_spec_index]
  rw [getD_append, getD_append, List.length_append, List.length_take_of_le hout_bd,
    List.length_map, List.length_range, getD_map_range, getD_drop]
  rcases Nat.lt_or_ge j batch_dims with hA | hA
  · rw [if_pos (by omega), if_pos (by omega), if_pos hA, getD_take _ _ _ _ hA]
  · rcases Nat.lt_or_ge j (batch_dims + indices_shape.getD (indices_shape.length - 1) 0) with hB | hB
    · rw [if_pos (by omega), if_neg (by omega), if_pos (by omega), if_neg (by omega),
        if_pos (by omega)]
    · rw [if_neg (by omega), if_neg (by omega), if_neg (by omega)]
      rcases Nat.lt_or_ge (j - (batch_dims + indices_shape.getD (indices_shape.length - 1) 0))
        (out_index.length - (indices_shape.length - 1)) with hC | hC
      · rw [if_pos hC]
      · rw [if_neg (by omega), getD_of_length_le]
        omega

theorem gather_nd_in_index_length
    (out_index : List Nat) (indices : Nat → Int) (indices_shape : List Nat)
    (batch_dims in_rank : Nat) :
    (gather_nd_in_index out_index in_rank indices indices_shape batch_dims).length
      = in_rank := by
  simp only [gather_nd_in_index]
  rw [length_foldl_set, length_foldl_set, gnd_step1_snd_length]

theorem gather_nd_spec_index_length
    (out_index : List Nat) (indices : Nat → Int) (indices_shape : List Nat)
    (batch_dims : Nat) (hout_bd : batch_dims ≤ out_index.length) :
    (gather_nd_spec_index out_index indices indices_shape batch_dims).length =
      batch_dims + indices_shape.getD (indices_shape.length - 1) 0 +
        (out_index.length - (indices_shape.length - 1)) := by
  simp only [gather_nd_spec_index]
  rw [List.length_append, List.length_append, List.length_take_of_le hout_bd,
    List.length_map, List.length_range, List.length_drop]

/-- Core equivalence: under the gather-nd shape contract (`indices_shape` has
rank ≥ 1, at most `rank − 1` batch axes, and the output rank accounts for the
non-indexed trailing input axes), the input coordinate computed by the four
loops of `gather_nd_impl` is exactly the specification's three-zone
coordinate. -/
theorem gather_nd_in_index_eq_spec
    (out_index : List Nat) (indices : Nat → Int) (indices_shape : List Nat)
    (batch_dims in_rank : Nat)
    (h1 : indices_shape ≠ [])
    (h2 : batch_dims ≤ indices_shape.length - 1)
    (h3 : batch_dims + indices_shape.getD (indices_shape.length - 1) 0 ≤ in_rank)
    (h4 : out_index.length = (indices_shape.length - 1) +
      (in_rank - (batch_dims + indices_shape.getD (indices_shape.length - 1) 0))) :
    gather_nd_in_index out_index in_rank indices indices_shape batch_dims =
      gather_nd_spec_index out_index indices indices_shape batch_dims := by
  have hr : 1 ≤ indices_shape.length := List.length_pos.mpr h1
  have hout_last : indices_shape.length - 1 ≤ out_index.length := by omega
  have hout_bd : batch_dims ≤ out_index.length := by omega
  have hbase : gnd_base out_index indices_shape in_rank batch_dims =
      offset (get_default_strides indices_shape)
        (out_index.take (indices_shape.length - 1) ++ [0]) := by
    rw [gnd_base, gnd_indices_index_eq out_index indices_shape.length in_rank
      batch_dims h2 hr hout_last]
  refine ext_of_getD _ _ 0 ?_ ?_
  · rw [gather_nd_in_index_length, gather_nd_spec_index_length _ _ _ _ hout_bd]
    omega
  · intro j
    rw [gather_nd_in_index_getD out_index indices indices_shape batch_dims in_rank j h2 h3 h4,
      gather_nd_spec_index_getD out_index indices indices_shape batch_dims j h2 hout_last,
      hbase,
      offset_default_strides_last indices_shape
        (out_index.take (indices_shape.length - 1)) (j - batch_dims) h1
        (List.length_take_of_le hout_last)]
    split_ifs <;> first | rfl | omega

/-!
## Valid coordinates and offset bounds
-/

/-- Membership in `shapeIndices s` is exactly pointwise boundedness by the
shape. -/
theorem mem_shapeIndices_forall (s : List Nat) (oi : List Nat)
    (h : oi ∈ shapeIndices s) : List.Forall₂ (· < ·) oi s := by
  induction s generalizing oi with
  | nil =>
    simp only [shapeIndices, List.mem_singleton] at h
    subst h
    exact List.Forall₂.nil
  | cons d rest ih =>
    simp only [shapeIndices, List.mem_flatMap, List.mem_map, List.mem_range] at h
    obtain ⟨i, hi, t, ht, rfl⟩ := h
    exact List.Forall₂.cons hi (ih t ht)


/-- A coordinate bounded by the shape has a default-strides offset below the
flat element count. -/
theorem offset_default_strides_lt (s c : List Nat)
    (h : List.Forall₂ (· < ·) c s) :
    offset (get_default_strides s) c < natProd s := by
  induction h with
  | nil => simp [offset, natProd]
  | @cons c0 d c' s' hcd _hcs ih =>
    have hstep : offset (get_default_strides (d :: s')) (c0 :: c') =
        c0 * natProd s' + offset (get_default_strides s') c' := rfl
    have hnp : natProd (d :: s') = d * natProd s' := rfl
    rw [hstep, hnp]
    calc c0 * natProd s' + offset (get_default_strides s') c'
        < c0 * natProd s' + natProd s' := by omega
      _ = (c0 + 1) * natProd s' := by ring
      _ ≤ d * natProd s' := Nat.mul_le_mul_right _ (by omega)


theorem shapeIndices_mem_length (s oi : List Nat) (h : oi ∈ shapeIndices s) :
    oi.length = s.length :=
  (mem_shapeIndices_forall s oi h).length_eq


/-- A non-empty shape is its length-minus-one prefix plus its last extent. -/
theorem take_append_getD_self (s : List Nat) (h : s ≠ []) :
    s.take (s.length - 1) ++ [s.getD (s.length - 1) 0] = s := by
  have hlt : s.length - 1 < s.length := by
    cases s with
    | nil => exact absurd rfl h
    | cons a b => simp
  rw [List.getD_eq_getElem s 0 hlt]
  have h1 : s.getLast h = s[s.length - 1] := List.getLast_eq_getElem s h
  have h2 : s.dropLast = s.take (s.length - 1) := s.dropLast_eq_take
  rw [← h1, ← h2, List.dropLast_append_getLast h]


/-- The input coordinate computed by `gather_nd_impl` consults the indices
buffer only at flat positions below the indices tensor's element count (the
default-strides offsets of in-range coordinates): two index buffers that
agree there produce the same coordinate. -/
theorem gather_nd_in_index_agree
    (out_index : List Nat) (ind ind2 : Nat → Int) (indices_shape : List Nat)
    (batch_dims in_rank : Nat)
    (h1 : indices_shape ≠ [])
    (h2 : batch_dims ≤ indices_shape.length - 1)
    (h3 : batch_dims + indices_shape.getD (indices_shape.length - 1) 0 ≤ in_rank)
    (h4 : out_index.length = (indices_shape.length - 1) +
      (in_rank - (batch_dims + indices_shape.getD (indices_shape.length - 1) 0)))
    (hfor : List.Forall₂ (· < ·) (out_index.take (indices_shape.length - 1))
      (indices_shape.take (indices_shape.length - 1)))
    (hagree : ∀ k, k < natProd indices_shape → ind k = ind2 k) :
    gather_nd_in_index out_index in_rank ind indices_shape batch_dims =
      gather_nd_in_index out_index in_rank ind2 indices_shape batch_dims := by
  have hr : 1 ≤ indices_shape.length := List.length_pos.mpr h1
  have hout_last : indices_shape.length - 1 ≤ out_index.length := by omega
  have htake : (out_index.take (indices_shape.length - 1)).length =
      indices_shape.length - 1 := List.length_take_of_le hout_last
  have hbase : gnd_base out_index indices_shape in_rank batch_dims =
      offset (get_default_strides indices_shape)
        (out_index.take (indices_shape.length - 1) ++ [0]) := by
    rw [gnd_base, gnd_indices_index_eq out_index indices_shape.length in_rank
      batch_dims h2 hr hout_last]
  refine ext_of_getD _ _ 0 ?_ ?_
  · rw [gather_nd_in_index_length, gather_nd_in_index_length]
  · intro j
    rw [gather_nd_in_index_getD out_index ind indices_shape batch_dims in_rank j h2 h3 h4,
      gather_nd_in_index_getD out_index ind2 indices_shape batch_dims in_rank j h2 h3 h4,
      hbase]
    split_ifs with hA hB
    · rfl
    · -- the indices-buffer reads land below the flat element count
      have hi : j - batch_dims < indices_shape.getD (indices_shape.length - 1) 0 := by
        omega
      have hlt : offset (get_default_strides indices_shape)
          (out_index.take (indices_shape.length - 1) ++ [0]) + (j - batch_dims) <
          natProd indices_shape := by
        rw [← offset_default_strides_last indices_shape
          (out_index.take (indices_shape.length - 1)) (j - batch_dims) h1 htake]
        refine offset_default_strides_lt indices_shape _ ?_
        have happ : List.Forall₂ (· < ·)
            (out_index.take (indices_shape.length - 1) ++ [j - batch_dims])
            (indices_shape.take (indices_shape.length - 1) ++
              [indices_shape.getD (indices_shape.length - 1) 0]) :=
          List.rel_append hfor (List.Forall₂.cons hi List.Forall₂.nil)
        rwa [take_append_getD_self indices_shape h1] at happ
      rw [hagree _ hlt]
    · rfl
    · rfl


/-!
## Claim theorems for the gather-nd kernel
-/

/-- **C2**: for every output index of a `gather_nd` call satisfying the shape
contract, the computed input index is built in the three zones the
specification describes — batch axes copied identically into both the
indices-tensor coordinate and the input coordinate, middle output axes into
the indices-tensor coordinate only, the final indices-tensor axis read as a
vector of `indices_shape[last]` integers giving the next leading input
coordinates, remaining trailing output axes copied straight through — and
exactly one scalar, `input[offset(in_strides, computed_index)]`, is written
at `offset(out_strides, out_index)` for that output position. -/
theorem gather_nd_impl_three_zones {α : Type}
    (input output : Nat → α)
    (in_shape out_shape in_strides out_strides : List Nat)
    (indices : Nat → Int) (indices_shape : List Nat) (batch_dims : Nat)
    (h1 : indices_shape ≠ [])
    (h2 : batch_dims ≤ indices_shape.length - 1)
    (h3 : batch_dims + indices_shape.getD (indices_shape.length - 1) 0 ≤ in_shape.length)
    (h4 : out_shape.length = (indices_shape.length - 1) +
      (in_shape.length - (batch_dims + indices_shape.getD (indices_shape.length - 1) 0))) :
    gather_nd_impl input output in_shape out_shape in_strides out_strides indices
        indices_shape batch_dims
      = Except.ok ((shapeIndices out_shape).foldl
          (fun out oi => Function.update out (offset out_strides oi)
            (input (offset in_strides (gather_nd_spec_index oi indices indices_shape batch_dims))))
          output) := by
  rw [gather_nd_impl]
  congr 1
  refine List.foldl_ext _ _ output (fun out oi hoi => ?_)
  have hlen : oi.length = out_shape.length := shapeIndices_mem_length out_shape oi hoi
  rw [gather_nd_read_offset,
    gather_nd_in_index_eq_spec oi indices indices_shape batch_dims in_shape.length
      h1 h2 h3 (by omega)]


/-- Witness for `gather_nd_impl_three_zones` at the specification's own
2×2 example. -/
theorem gather_nd_impl_three_zones_witness :
    (([2, 1] : List Nat) ≠ []) ∧ ((0 : Nat) ≤ ([2, 1] : List Nat).length - 1) ∧
    (0 + ([2, 1] : List Nat).getD (([2, 1] : List Nat).length - 1) 0 ≤ ([2, 2] : List Nat).length) ∧
    (([2, 2] : List Nat).length = (([2, 1] : List Nat).length - 1) +
      (([2, 2] : List Nat).length - (0 + ([2, 1] : List Nat).getD (([2, 1] : List Nat).length - 1) 0))) ∧
    gather_nd_impl (fun n => (([1, 2, 3, 4] : List Int).getD n 0)) (fun _ => (0 : Int))
        [2, 2] [2, 2] [2, 1] [2, 1] (fun n => (([1, 0] : List Int).getD n 0)) [2, 1] 0
      = Except.ok ((shapeIndices [2, 2]).foldl
          (fun out oi => Function.update out (offset [2, 1] oi)
            ((fun n => (([1, 2, 3, 4] : List Int).getD n 0))
              (offset [2, 1]
                (gather_nd_spec_index oi (fun n => (([1, 0] : List Int).getD n 0)) [2, 1] 0))))
          (fun _ => (0 : Int))) :=
  ⟨by decide, by decide, by decide, by decide,
    gather_nd_impl_three_zones _ _ _ _ _ _ _ _ _
      (by decide) (by decide) (by decide) (by decide)⟩


/-- **C3**: on the 2×2 input `[[1,2],[3,4]]` with indices `[[1],[0]]` of shape
`[2,1]` and `batch_dims = 0`, the kernel writes `[[3,4],[1,2]]` (flat
row-major `[3,4,1,2]`). -/
theorem gather_nd_concrete_2x2 :
    (gather_nd_impl (fun n => (([1, 2, 3, 4] : List Int).getD n 0)) (fun _ => (0 : Int))
        [2, 2] [2, 2] [2, 1] [2, 1] (fun n => (([1, 0] : List Int).getD n 0)) [2, 1] 0).map
      (fun f => [f 0, f 1, f 2, f 3]) = Except.ok [3, 4, 1, 2] := by
  rfl


/-- **C4** (documents a divergence between code and spec): with the
out-of-bounds index value `5` for a 2×2 input, the kernel still reports
success — the unconditional `ok()` — and the input offset it reads for output
position `(0,0)` is `10`, outside the 4-element input buffer.  No bounds
check exists in `gather_nd_impl`. -/
theorem gather_nd_oob_index_no_failure :
    (∃ f, gather_nd_impl (fun n => (([1, 2, 3, 4] : List Int).getD n 0)) (fun _ => (0 : Int))
        [2, 2] [2, 2] [2, 1] [2, 1] (fun n => (([5, 0] : List Int).getD n 0)) [2, 1] 0
        = Except.ok f)
    ∧ gather_nd_read_offset [0, 0] 2 [2, 1] (fun n => (([5, 0] : List Int).getD n 0)) [2, 1] 0 = 10
    ∧ natProd [2, 2] = 4 :=
  ⟨⟨_, rfl⟩, by decide, by decide⟩


/-- **C10**: the kernel reads the indices tensor exclusively through default
row-major strides derived from `indices_shape` — any two index buffers that
agree on the flat positions `[0, natProd indices_shape)` (the default-strides
offsets of in-range coordinates) yield identical results, regardless of any
intended non-default layout of the indices buffer.  (`reference::gather_nd`
accepts no strides argument for the indices operand, unlike `input` and
`output` whose caller-supplied strides appear in the computed offsets.) -/
theorem gather_nd_indices_contiguous {α : Type}
    (input output : Nat → α)
    (in_shape out_shape in_strides out_strides : List Nat)
    (ind ind2 : Nat → Int) (indices_shape : List Nat) (batch_dims : Nat)
    (h1 : indices_shape ≠ [])
    (h2 : batch_dims ≤ indices_shape.length - 1)
    (h3 : batch_dims + indices_shape.getD (indices_shape.length - 1) 0 ≤ in_shape.length)
    (h4 : out_shape.length = (indices_shape.length - 1) +
      (in_shape.length - (batch_dims + indices_shape.getD (indices_shape.length - 1) 0)))
    (hpre : out_shape.take (indices_shape.length - 1) =
      indices_shape.take (indices_shape.length - 1))
    (hagree : ∀ k, k < natProd indices_shape → ind k = ind2 k) :
    gather_nd_impl input output in_shape out_shape in_strides out_strides ind
        indices_shape batch_dims =
      gather_nd_impl input output in_shape out_shape in_strides out_strides ind2
        indices_shape batch_dims := by
  rw [gather_nd_impl, gather_nd_impl]
  congr 1
  refine List.foldl_ext _ _ output (fun out oi hoi => ?_)
  have hlen : oi.length = out_shape.length := shapeIndices_mem_length out_shape oi hoi
  have hfor : List.Forall₂ (· < ·) (oi.take (indices_shape.length - 1))
      (indices_shape.take (indices_shape.length - 1)) := by
    rw [← hpre]
    exact List.forall₂_take _ (mem_shapeIndices_forall out_shape oi hoi)
  rw [gather_nd_read_offset, gather_nd_read_offset,
    gather_nd_in_index_agree oi ind ind2 indices_shape batch_dims in_shape.length
      h1 h2 h3 (by omega) hfor hagree]


/-- Witness for `gather_nd_indices_contiguous`: buffers `[1,0,99]` and
`[1,0,-7]` agree on the two in-range positions and give equal results. -/
theorem gather_nd_indices_contiguous_witness :
    (([2, 1] : List Nat) ≠ []) ∧ ((0 : Nat) ≤ ([2, 1] : List Nat).length - 1) ∧
    (0 + ([2, 1] : List Nat).getD (([2, 1] : List Nat).length - 1) 0 ≤ ([2, 2] : List Nat).length) ∧
    (([2, 2] : List Nat).length = (([2, 1] : List Nat).length - 1) +
      (([2, 2] : List Nat).length - (0 + ([2, 1] : List Nat).getD (([2, 1] : List Nat).length - 1) 0))) ∧
    (([2, 2] : List Nat).take (([2, 1] : List Nat).length - 1) =
      ([2, 1] : List Nat).take (([2, 1] : List Nat).length - 1)) ∧
    (∀ k, k < natProd [2, 1] →
      (fun n => (([1, 0, 99] : List Int).getD n 0)) k =
        (fun n => (([1, 0, -7] : List Int).getD n 0)) k) ∧
    gather_nd_impl (fun n => (([1, 2, 3, 4] : List Int).getD n 0)) (fun _ => (0 : Int))
        [2, 2] [2, 2] [2, 1] [2, 1] (fun n => (([1, 0, 99] : List Int).getD n 0)) [2, 1] 0
      = gather_nd_impl (fun n => (([1, 2, 3, 4] : List Int).getD n 0)) (fun _ => (0 : Int))
        [2, 2] [2, 2] [2, 1] [2, 1] (fun n => (([1, 0, -7] : List Int).getD n 0)) [2, 1] 0 :=
  ⟨by decide, by decide, by decide, by decide, by decide, by decide,
    gather_nd_indices_contiguous _ _ _ _ _ _ _ _ _ _
      (by decide) (by decide) (by decide) (by decide) (by decide) (by decide)⟩

/-!
## The Evaluator's registration table (`neutral_ops.cpp`)

Operator kinds are the tags `register_neutral_evaluators` registers.  The
non-trivial registrations call Kernel Library functions (`kernels::binary`,
`kernels::conv2d`, …) whose bodies live outside `src/`; those closures are
abstracted as a `kernel_eval` parameter, while the four no-op registrations
(lines 80–83) are literal.  Elementwise float values are modelled as exact
rationals.
-/

/-- The operator kinds registered by `register_neutral_evaluators`, in
registration order. -/
inductive op_kind
  | op_input_node | op_output_node | op_ignore_node | op_constant
  | op_batch_to_space | op_binary | op_concat | op_conv2d | op_conv2d_transpose
  | op_dequantize | op_fused_unary | op_matmul | op_pad | op_quantize
  | op_reduce | op_reduce_window2d | op_bitcast | op_resize_image | op_slice
  | op_transpose | op_unary | op_table_lookup1d | op_clamp | op_convert
  | op_gather | op_gather_nd
  deriving DecidableEq

/-- `nop_evaluator(ir::node &, module_evaluate_context &)`: an empty body —
the evaluation context is returned unchanged. -/
def nop_evaluator {ν σ : Type} (_node : ν) (ctx : σ) : σ := ctx

/-- The registration table built by `register_neutral_evaluators`: the
`op_input_node`, `op_output_node`, `op_ignore_node` and `op_constant` entries
are `nop_evaluator`; every other kind's entry is its kernel-invoking closure,
abstracted here as `kernel_eval` (the kernel bodies are outside `src/`). -/
def register_neutral_evaluators {ν σ : Type} (kernel_eval : op_kind → ν → σ → σ) :
    op_kind → ν → σ → σ
  | .op_input_node => nop_evaluator
  | .op_output_node => nop_evaluator
  | .op_ignore_node => nop_evaluator
  | .op_constant => nop_evaluator
  | k => kernel_eval k

/-- Modelled from the spec: the element data-type enumeration ("signed/
unsigned 8/16/32-bit integers, 32-bit float"); its declaring header is not
under `src/`.  `neutral_ops.cpp` names `dt_uint8`, `dt_int8`, `dt_int32` and
`dt_float32` directly. -/
inductive datatype_t
  | dt_int8 | dt_uint8 | dt_int16 | dt_uint16 | dt_int32 | dt_uint32 | dt_float32
  deriving DecidableEq

/-- Quantization parameters: zero point and scale. -/
structure quant_param_t where
  zero_point : Int
  scale : ℚ

/-- Modelled from the spec: `neutral::dequantize` (kernel body not under
`src/`) — the affine mapping `real = (quantized − zero_point) × scale`,
applied elementwise. -/
def dequantize_kernel (input : List Int) (p : quant_param_t) : List ℚ :=
  input.map (fun q => ((q - p.zero_point : Int) : ℚ) * p.scale)

/-- The `op_dequantize` evaluator's dispatch on the input connector's data
type (`neutral_ops.cpp` lines 166–188): `dt_uint8`, `dt_int8` and `dt_int32`
run the kernel; every other type hits the assertion in the `default:` branch
("not supported type!"), modelled as an error result. -/
def op_dequantize_eval (t : datatype_t) (input : List Int) (p : quant_param_t) :
    Except String (List ℚ) :=
  match t with
  | .dt_uint8 => .ok (dequantize_kernel input p)
  | .dt_int8 => .ok (dequantize_kernel input p)
  | .dt_int32 => .ok (dequantize_kernel input p)
  | _ => .error "not supported type!"

/-- The unary operator enumeration.  The first thirteen kinds are the cases
of the evaluator's switch (`neutral_ops.cpp` lines 345–401).  Modelled from
the spec: the enumeration is declared outside `src/` and holds at least one
further kind (here `unary_logical_not`) that the switch does not handle and
that therefore reaches the `default:` branch. -/
inductive unary_op_t
  | unary_abs | unary_ceil | unary_cos | unary_exp | unary_floor | unary_log
  | unary_neg | unary_round | unary_rsqrt | unary_sin | unary_sqrt
  | unary_square | unary_tanh | unary_logical_not
  deriving DecidableEq

/-- The libm routines the unary evaluator delegates to (`cosf`, `expf`, …);
their numeric behaviour is external to this repository, so they are abstract
function fields. -/
structure LibM where
  cosf : ℚ → ℚ
  expf : ℚ → ℚ
  logf : ℚ → ℚ
  sinf : ℚ → ℚ
  sqrtf : ℚ → ℚ
  tanhf : ℚ → ℚ

/-- The `unary_round` lambda (`neutral_ops.cpp` lines 368–385), banker's
rounding: `floor_val = floor(a)`, `diff = a − floor_val`; return `floor_val`
when `diff < 0.5` or (`diff == 0.5` and `(int)floor_val % 2 == 0`), else
`floor_val + 1`.  C's truncating `%` on the already-integral `floor_val` is
`Int.tmod` on `⌊a⌋`. -/
def bankers_round (a : ℚ) : ℚ :=
  let floor_val : ℚ := ⌊a⌋
  let diff : ℚ := a - floor_val
  if diff < 1 / 2 ∨ (diff = 1 / 2 ∧ Int.tmod ⌊a⌋ 2 = 0) then floor_val
  else floor_val + 1

/-- The `op_unary` evaluator's switch (`neutral_ops.cpp` lines 334–405): one
elementwise map per supported unary kind; the `default:` branch throws
`"Not supported unary"`, modelled as an error result. -/
def op_unary_eval (lm : LibM) (op : unary_op_t) (input : List ℚ) :
    Except String (List ℚ) :=
  match op with
  | .unary_abs => .ok (input.map (fun a => |a|))
  | .unary_ceil => .ok (input.map (fun a => ((⌈a⌉ : Int) : ℚ)))
  | .unary_cos => .ok (input.map lm.cosf)
  | .unary_exp => .ok (input.map lm.expf)
  | .unary_floor => .ok (input.map (fun a => ((⌊a⌋ : Int) : ℚ)))
  | .unary_log => .ok (input.map lm.logf)
  | .unary_neg => .ok (input.map (fun a => -a))
  | .unary_round => .ok (input.map bankers_round)
  | .unary_rsqrt => .ok (input.map (fun a => 1 / lm.sqrtf a))
  | .unary_sin => .ok (input.map lm.sinf)
  | .unary_sqrt => .ok (input.map lm.sqrtf)
  | .unary_square => .ok (input.map (fun a => a * a))
  | .unary_tanh => .ok (input.map lm.tanhf)
  | .unary_logical_not => .error "Not supported unary"

/-- `std::clamp(v, lo, hi)`: `v < lo ? lo : hi < v ? hi : v`. -/
def std_clamp (v lo hi : ℚ) : ℚ := if v < lo then lo else if hi < v then hi else v

/-- The `op_clamp` evaluator (`neutral_ops.cpp` lines 418–435): the scalar
bounds are the FIRST elements of the bound low/high buffers
(`input_low.data()[0]`, `input_high.data()[0]`); every input element is
clamped to them. -/
def op_clamp_eval (input input_low input_high : List ℚ) : List ℚ :=
  input.map (fun v => std_clamp v (input_low.getD 0 0) (input_high.getD 0 0))

/-!
## The Evaluator pass and the stack-vm Bytecode Emitter

The pass loop itself (`ir/evaluator.cpp`) and the emitter bodies
(`stackvm_module_builder::emit`, generated over `ops.def`) are declared but
not defined under `src/`; they are modelled from the spec, with the kernel
semantics as a shared abstract parameter.
-/

/-- Modelled from the spec: the Evaluator pass — execute the schedule node by
node, in order; each kernel invocation either produces the next state or a
typed failure; the call sites in `neutral_ops.cpp` turn a kernel failure into
an exception (`.unwrap_or_throw()`) that aborts the pass at that node. -/
def eval_pass {ν σ ε : Type} (step : ν → σ → Except ε σ) :
    List ν → σ → Except ε σ
  | [], s => .ok s
  | n :: rest, s =>
    match step n s with
    | .ok s2 => eval_pass step rest s2
    | .error e => .error e

/-- A graph node as both Evaluator and Emitter consume it: operator kind,
encoded attribute values, and input/output connector ids resolved through the
Memory Binding. -/
structure g_node where
  kind : op_kind
  attrs : List Int
  inputs : List Nat
  outputs : List Nat

/-- Modelled from the spec: the Kernel Library contract — one semantic
function per operator kind over the bound-memory state, parameterised by the
node's attributes and connector ids.  The Evaluator invokes the host copy and
the stack-vm runtime "its own copy of the Kernel Library" with the same
semantics (the kernel bodies are not under `src/`). -/
def kernel_lib (σ : Type) : Type :=
  op_kind → List Int → List Nat → List Nat → σ → σ

/-- The Evaluator pass over a schedule: dispatch every node's kind through
the kernel semantics, threading the bound-memory state. -/
def eval_graph {σ : Type} (K : kernel_lib σ) (nodes : List g_node) (s : σ) : σ :=
  nodes.foldl (fun st n => K n.kind n.attrs n.inputs n.outputs st) s

/-- A stack-vm instruction record: opcode plus the attribute and operand
fields an emission function encodes. -/
structure instruction where
  opcode : op_kind
  attr_fields : List Int
  operand_addrs : List Nat
  result_addrs : List Nat

/-- Modelled from the spec: one emission function per operator kind
(`stackvm_module_builder::emit(ir::node &)`, dispatching to the
`ops.def`-generated members): emit operand fetches and an opcode record
encoding the operator and its attributes; emission never evaluates numeric
results. -/
def emit_node (n : g_node) : List instruction :=
  [⟨n.kind, n.attrs, n.inputs, n.outputs⟩]

/-- The Bytecode Emitter: append-only emission over the schedule, producing
one linear instruction stream (the text section of the module). -/
def emit_graph (nodes : List g_node) : List instruction :=
  nodes.flatMap emit_node

/-- Modelled from the spec: the companion stack-vm runtime decodes each
instruction record and executes it against its own copy of the Kernel
Library. -/
def run_stackvm {σ : Type} (K : kernel_lib σ) (instrs : List instruction) (s : σ) : σ :=
  instrs.foldl (fun st i => K i.opcode i.attr_fields i.operand_addrs i.result_addrs st) s

/-!
## Properties of banker's rounding
-/

/-- `bankers_round` returns either the floor or the floor plus one. -/
theorem bankers_round_eq_floor_or_succ (a : ℚ) :
    bankers_round a = (⌊a⌋ : ℚ) ∨ bankers_round a = (⌊a⌋ : ℚ) + 1 := by
  rw [bankers_round]
  split_ifs with h
  · exact Or.inl rfl
  · exact Or.inr rfl

/-- `bankers_round` is within half of its argument. -/
theorem bankers_round_dist (a : ℚ) : |a - bankers_round a| ≤ 1 / 2 := by
  have h0 : (⌊a⌋ : ℚ) ≤ a := Int.floor_le a
  have h1 : a < (⌊a⌋ : ℚ) + 1 := Int.lt_floor_add_one a
  rw [bankers_round]
  split_ifs with h
  · rcases h with h | h
    · rw [abs_of_nonneg (by linarith)]
      linarith
    · rw [abs_of_nonneg (by linarith)]
      linarith [h.1]
  · push_neg at h
    have h2 : 1 / 2 ≤ a - (⌊a⌋ : ℚ) := h.1
    rw [abs_of_nonpos (by linarith)]
    linarith

/-- `bankers_round` returns an integer. -/
theorem bankers_round_int (a : ℚ) : ∃ n : Int, bankers_round a = (n : ℚ) := by
  rcases bankers_round_eq_floor_or_succ a with h | h
  · exact ⟨⌊a⌋, h⟩
  · exact ⟨⌊a⌋ + 1, by rw [h]; push_cast; ring⟩

/-- `bankers_round` is at least as close to its argument as any integer. -/
theorem bankers_round_nearest (a : ℚ) (m : Int) :
    |a - bankers_round a| ≤ |a - (m : ℚ)| := by
  obtain ⟨n, hn⟩ := bankers_round_int a
  rw [hn]
  by_cases hm : m = n
  · rw [hm]
  · have hd : (1 : ℚ) ≤ |(n : ℚ) - (m : ℚ)| := by
      have h1 : (1 : Int) ≤ |n - m| := Int.one_le_abs (by omega)
      have h2 : ((|n - m| : Int) : ℚ) = |(n : ℚ) - (m : ℚ)| := by push_cast; rfl
      calc (1 : ℚ) ≤ ((|n - m| : Int) : ℚ) := by exact_mod_cast h1
        _ = |(n : ℚ) - (m : ℚ)| := h2
    have htri : |(n : ℚ) - m| ≤ |(n : ℚ) - a| + |a - m| := by
      calc |(n : ℚ) - m| = |((n : ℚ) - a) + (a - m)| := by ring_nf
        _ ≤ |(n : ℚ) - a| + |a - m| := abs_add _ _
    have hna : |(n : ℚ) - a| ≤ 1 / 2 := by
      rw [abs_sub_comm, ← hn]
      exact bankers_round_dist a
    have h2 : |a - bankers_round a| ≤ 1 / 2 := bankers_round_dist a
    rw [hn] at h2
    linarith

/-- At an exact tie the result is the even neighbour. -/
theorem bankers_round_tie_even (a : ℚ) (h : a - (⌊a⌋ : ℚ) = 1 / 2) :
    ∃ k : Int, bankers_round a = 2 * (k : ℚ) := by
  rw [bankers_round]
  by_cases ht : Int.tmod ⌊a⌋ 2 = 0
  · rw [if_pos (Or.inr ⟨h, ht⟩)]
    obtain ⟨k, hk⟩ := Int.dvd_of_tmod_eq_zero ht
    exact ⟨k, by rw [hk]; push_cast; ring⟩
  · rw [if_neg (by
      push_neg
      exact ⟨by rw [h], fun _ => ht⟩)]
    have hodd : ¬ (2 : Int) ∣ ⌊a⌋ := fun hdvd => ht (Int.tmod_eq_zero_of_dvd hdvd)
    have heven : Even (⌊a⌋ + 1) := by
      rcases Int.even_or_odd ⌊a⌋ with he | ho
      · exact absurd he.two_dvd hodd
      · exact Odd.add_one ho
    obtain ⟨k, hk⟩ := heven
    refine ⟨k, ?_⟩
    have hc := congrArg (fun z : Int => (z : ℚ)) hk
    push_cast at hc
    linarith

/-!
## Claim theorems for the Evaluator and Emitter
-/

/-- **C1**: for every supported operator kind, executing the Emitter's
instruction stream through the runtime's copy of the kernel semantics
produces exactly the state the Evaluator produces on the same graph and the
same initial bound memory. -/
theorem emitter_reproduces_evaluator {σ : Type} (K : kernel_lib σ)
    (nodes : List g_node) (s : σ) :
    run_stackvm K (emit_graph nodes) s = eval_graph K nodes s := by
  induction nodes generalizing s with
  | nil => rfl
  | cons n rest ih =>
    simp only [emit_graph, List.flatMap_cons, emit_node, eval_graph,
      run_stackvm, List.foldl_cons, List.singleton_append] at *
    exact ih _

/-- **C6**: if a node's kernel invocation fails, the whole pass aborts with
that failure — the result is the error of the failing node and does not
depend on the nodes scheduled after it (no later node is evaluated, no retry,
no partial-result recovery). -/
theorem eval_pass_fail_fast {ν σ ε : Type} (step : ν → σ → Except ε σ)
    (pre : List ν) (n : ν) (post : List ν) (s s2 : σ) (e : ε)
    (hpre : eval_pass step pre s = .ok s2) (hn : step n s2 = .error e) :
    eval_pass step (pre ++ n :: post) s = .error e ∧
    eval_pass step (pre ++ n :: post) s = eval_pass step (pre ++ [n]) s := by
  induction pre generalizing s with
  | nil =>
    simp only [eval_pass] at hpre
    cases hpre
    simp [eval_pass, hn]
  | cons x xs ih =>
    simp only [eval_pass, List.cons_append] at *
    cases hx : step x s with
    | ok s3 =>
      rw [hx] at hpre
      exact ih s3 hpre
    | error e2 =>
      rw [hx] at hpre
      cases hpre

/-- Witness for `eval_pass_fail_fast`: a two-node schedule whose second node
fails; the pass errors and ignores the trailing nodes. -/
theorem eval_pass_fail_fast_witness :
    (eval_pass (fun (b : Bool) (k : Nat) =>
        if b then Except.ok (k + 1) else Except.error "kernel failure") [true] 0
      = Except.ok 1) ∧
    ((fun (b : Bool) (k : Nat) =>
        if b then Except.ok (k + 1) else Except.error "kernel failure") false 1
      = Except.error "kernel failure") ∧
    (eval_pass (fun (b : Bool) (k : Nat) =>
        if b then Except.ok (k + 1) else Except.error "kernel failure")
        ([true] ++ false :: [true, true]) 0 = Except.error "kernel failure" ∧
      eval_pass (fun (b : Bool) (k : Nat) =>
        if b then Except.ok (k + 1) else Except.error "kernel failure")
        ([true] ++ false :: [true, true]) 0
        = eval_pass (fun (b : Bool) (k : Nat) =>
            if b then Except.ok (k + 1) else Except.error "kernel failure")
            ([true] ++ [false]) 0) :=
  ⟨rfl, rfl, eval_pass_fail_fast _ [true] false [true, true] 0 1 "kernel failure" rfl rfl⟩

/-- **C7**: unsupported configurations fail loudly — a dequantize node whose
input data type is not `uint8`/`int8`/`int32` hits the `default:` assertion,
and a unary node whose operator is outside the supported kinds hits the
`default:` throw; neither path produces output data. -/
theorem unsupported_config_fails :
    (∀ (t : datatype_t) (input : List Int) (p : quant_param_t),
      t ≠ .dt_uint8 → t ≠ .dt_int8 → t ≠ .dt_int32 →
      op_dequantize_eval t input p = .error "not supported type!") ∧
    (∀ (lm : LibM) (input : List ℚ),
      op_unary_eval lm .unary_logical_not input = .error "Not supported unary") := by
  constructor
  · intro t input p h1 h2 h3
    cases t <;> first | rfl | simp_all
  · intro lm input
    rfl

/-- Witness for `unsupported_config_fails` at `dt_float32`. -/
theorem unsupported_config_fails_witness :
    (datatype_t.dt_float32 ≠ datatype_t.dt_uint8) ∧
    (datatype_t.dt_float32 ≠ datatype_t.dt_int8) ∧
    (datatype_t.dt_float32 ≠ datatype_t.dt_int32) ∧
    op_dequantize_eval datatype_t.dt_float32 [7] ⟨0, 1⟩
      = Except.error "not supported type!" :=
  ⟨by decide, by decide, by decide,
    unsupported_config_fails.1 datatype_t.dt_float32 [7] ⟨0, 1⟩
      (by decide) (by decide) (by decide)⟩

/-- **C8**: every output element `i` of a clamp node is
`clamp(input[i], low, high)` where `low` and `high` are exactly the first
elements of the bound low/high buffers, and those buffers' elements beyond
the first have no effect on the output. -/
theorem clamp_uses_first_elements :
    (∀ (input lo hi : List ℚ) (i : Nat), i < input.length →
      (op_clamp_eval input lo hi).getD i 0 =
        std_clamp (input.getD i 0) (lo.getD 0 0) (hi.getD 0 0)) ∧
    (∀ (input lo hi lo2 hi2 : List ℚ), lo.getD 0 0 = lo2.getD 0 0 →
      hi.getD 0 0 = hi2.getD 0 0 →
      op_clamp_eval input lo hi = op_clamp_eval input lo2 hi2) := by
  constructor
  · intro input lo hi i hlt
    rw [op_clamp_eval, List.getD_eq_getElem _ _ (by simpa using hlt),
      List.getElem_map, ← List.getD_eq_getElem input 0 hlt]
  · intro input lo hi lo2 hi2 h1 h2
    rw [op_clamp_eval, op_clamp_eval, h1, h2]

/-- Witness for `clamp_uses_first_elements`: input `[5]` with bounds buffers
`[1, 99]`/`[2, −8]` clamps to `2`, and changing the bound buffers beyond
their first elements leaves the output unchanged. -/
theorem clamp_uses_first_elements_witness :
    ((0 : Nat) < ([5] : List ℚ).length ∧
      (op_clamp_eval [5] [1, 99] [2, -8]).getD 0 0 =
        std_clamp (([5] : List ℚ).getD 0 0) (([1, 99] : List ℚ).getD 0 0)
          (([2, -8] : List ℚ).getD 0 0)) ∧
    ((([1, 99] : List ℚ).getD 0 0 = ([1, -4] : List ℚ).getD 0 0) ∧
      (([2, -8] : List ℚ).getD 0 0 = ([2, 7] : List ℚ).getD 0 0) ∧
      op_clamp_eval [5] [1, 99] [2, -8] = op_clamp_eval [5] [1, -4] [2, 7]) :=
  ⟨⟨by norm_num, clamp_uses_first_elements.1 [5] [1, 99] [2, -8] 0 (by norm_num)⟩,
    by norm_num, by norm_num,
    clamp_uses_first_elements.2 [5] [1, 99] [2, -8] [1, -4] [2, 7]
      (by norm_num) (by norm_num)⟩

/-- **C9**: evaluating an input, output, ignore, or constant node through the
registration table is a no-op: the evaluation context (all bound memory and
evaluator state) is returned unchanged. -/
theorem nop_nodes_leave_state_unchanged {ν σ : Type}
    (kernel_eval : op_kind → ν → σ → σ) (k : op_kind) (n : ν) (ctx : σ)
    (h : k = .op_input_node ∨ k = .op_output_node ∨ k = .op_ignore_node ∨
      k = .op_constant) :
    register_neutral_evaluators kernel_eval k n ctx = ctx := by
  rcases h with rfl | rfl | rfl | rfl <;> rfl

/-- Witness for `nop_nodes_leave_state_unchanged` at a constant node, with a
kernel table that would visibly change the state if it were consulted. -/
theorem nop_nodes_leave_state_unchanged_witness :
    (op_kind.op_constant = op_kind.op_input_node ∨
      op_kind.op_constant = op_kind.op_output_node ∨
      op_kind.op_constant = op_kind.op_ignore_node ∨
      op_kind.op_constant = op_kind.op_constant) ∧
    register_neutral_evaluators (fun _ _ (s : List Int) => 0 :: s)
      op_kind.op_constant (0 : Nat) [5] = [5] :=
  ⟨by decide, nop_nodes_leave_state_unchanged _ _ _ _ (by decide)⟩

/-- **C5**: the Evaluator's unary round implements round-half-to-even: for
every input it returns an integer at minimal distance from the input, exact
ties go to the even integer, `round(0.5) = 0`, `round(1.5) = 2`,
`round(2.5) = 2`, `round(−0.5) = 0`, and the `op_unary` dispatch maps the
round case to exactly this elementwise function. -/
theorem unary_round_bankers :
    (∀ a : ℚ, ∃ n : Int, bankers_round a = (n : ℚ)) ∧
    (∀ (a : ℚ) (m : Int), |a - bankers_round a| ≤ |a - (m : ℚ)|) ∧
    (∀ a : ℚ, a - (⌊a⌋ : ℚ) = 1 / 2 → ∃ k : Int, bankers_round a = 2 * (k : ℚ)) ∧
    bankers_round (1 / 2) = 0 ∧ bankers_round (3 / 2) = 2 ∧
    bankers_round (5 / 2) = 2 ∧ bankers_round (-(1 / 2)) = 0 ∧
    (∀ (lm : LibM) (input : List ℚ),
      op_unary_eval lm .unary_round input = .ok (input.map bankers_round)) := by
  refine ⟨bankers_round_int, bankers_round_nearest, bankers_round_tie_even,
    ?_, ?_, ?_, ?_, fun _ _ => rfl⟩
  · norm_num [bankers_round]
  · norm_num [bankers_round]
    decide
  · norm_num [bankers_round]
  · norm_num [bankers_round]
    decide

/-- Witness for `unary_round_bankers`: the tie at `3/2` goes to `2`. -/
theorem unary_round_bankers_witness :
    ((3 : ℚ) / 2 - ((⌊(3 : ℚ) / 2⌋ : Int) : ℚ) = 1 / 2) ∧
    (∃ k : Int, bankers_round (3 / 2) = 2 * (k : ℚ)) :=
  ⟨by norm_num, unary_round_bankers.2.2.1 (3 / 2) (by norm_num)⟩

end NncaseSpec
